import Mathlib

/-!
Shallow embedding of the atto editor core (src/atto.c): the in-memory
document model (rows of text with a derived tab-expanded render form), the
row/character mutation operations, load/save serialization, cursor
translation and the scrolling logic.  Byte sequences are modelled as
`List Char`; a row's `len` is `text.length` and `renderLen` is
`render.length`, matching the C code's invariant that the tracked lengths
describe the owned buffers.
-/

namespace Atto

/-- TAB_STOP from atto.c line 25. -/
def TAB_STOP : Nat := 8

/-- TextRow from atto.c: logical `text` plus the derived `render` buffer.
`len` and `renderLen` are the list lengths. -/
structure TextRow where
  text : List Char
  render : List Char
deriving DecidableEq, Repr

/-- The inner loop of editorUpdateRow (atto.c lines 461-476), carrying the
render position `pos`: a tab emits one space and then spaces until `pos`
is a multiple of TAB_STOP (so `TAB_STOP - pos % TAB_STOP` spaces in all);
any other byte is copied through. -/
def renderAux (pos : Nat) : List Char → List Char
  | [] => []
  | c :: rest =>
    if c = '\t' then
      let pad := TAB_STOP - pos % TAB_STOP
      List.replicate pad ' ' ++ renderAux (pos + pad) rest
    else
      c :: renderAux (pos + 1) rest

/-- editorUpdateRow (atto.c lines 450-480): regenerate `render` from
`text` starting at render position 0. -/
def editorUpdateRow (row : TextRow) : TextRow :=
  { row with render := renderAux 0 row.text }

/-- editorCursorXToCursorRenderX (atto.c lines 333-346): walk the first
`cursorX` bytes of the row's text; a tab adds `(TAB_STOP - 1) -
cursorRenderX % TAB_STOP` and then every byte adds one. -/
def editorCursorXToCursorRenderX (row : TextRow) (cursorX : Nat) : Nat :=
  (row.text.take cursorX).foldl
    (fun crx c =>
      if c = '\t' then crx + ((TAB_STOP - 1) - crx % TAB_STOP) + 1
      else crx + 1)
    0

/-- A generalisation of editorCursorXToCursorRenderX with an arbitrary
starting render column, used to reason by induction. -/
def cxToRxFrom (crx : Nat) (s : List Char) : Nat :=
  s.foldl
    (fun crx c =>
      if c = '\t' then crx + ((TAB_STOP - 1) - crx % TAB_STOP) + 1
      else crx + 1)
    crx

/-- Document from atto.c lines 50-58: the ordered rows, viewport offsets,
optional filename and the dirty counter (`rowsCount` is `rows.length`). -/
structure Document where
  rows : List TextRow
  rowOffset : Nat
  colOffset : Nat
  filename : Option (List Char)
  dirty : Nat
deriving DecidableEq, Repr

/-- Reading `document.rows[i]`; all callers guard the index. -/
def rowAt (doc : Document) (i : Nat) : TextRow :=
  doc.rows.getD i { text := [], render := [] }

/-- editorInsertCharAtRow (atto.c lines 369-381): a clamped insertion of
one byte at offset `at` (out-of-range `at` is replaced by `row.len`),
followed by a render update; `document.dirty` gains the returned delta. -/
def editorInsertCharAtRow (c : Char) (atPos : Int) (row : TextRow) : TextRow × Nat :=
  let a := if atPos < 0 ∨ atPos > (row.text.length : Int) then row.text.length else atPos.toNat
  (editorUpdateRow { row with text := row.text.take a ++ c :: row.text.drop a }, 1)

/-- editorDelCharAtRow (atto.c lines 383-393): guarded by
`at < 0 || at > row->len` (note: `at == row->len` passes the guard; the
memmove then copies zero bytes and `len--` drops the row's final byte).
For `0 <= at < len` the byte at offset `at` is removed.  The observable
result in both cases is `(text with index at erased) truncated to len-1`;
`document.dirty` gains the returned delta. -/
def editorDelCharAtRow (atPos : Int) (row : TextRow) : TextRow × Nat :=
  if atPos < 0 ∨ atPos > (row.text.length : Int) then (row, 0)
  else
    let a := atPos.toNat
    let text1 := (row.text.take a ++ row.text.drop (a + 1)).take (row.text.length - 1)
    (editorUpdateRow { row with text := text1 }, 1)

/-- editorAppendStringToRow (atto.c lines 439-448): concatenates `s` onto
the row's text and updates the render; dirty gains the returned delta. -/
def editorAppendStringToRow (s : List Char) (row : TextRow) : TextRow × Nat :=
  (editorUpdateRow { row with text := row.text ++ s }, 1)

/-- editorInsertRow (atto.c lines 502-521): guarded by
`at < 0 || at > rowsCount`; inserts a freshly rendered row at index `at`
and increments dirty. -/
def editorInsertRow (atPos : Int) (s : List Char) (doc : Document) : Document :=
  if atPos < 0 ∨ atPos > (doc.rows.length : Int) then doc
  else
    let a := atPos.toNat
    { doc with
      rows := doc.rows.take a ++ editorUpdateRow { text := s, render := [] } :: doc.rows.drop a,
      dirty := doc.dirty + 1 }

/-- editorDelRow (atto.c lines 425-437): guarded by
`at < 0 || at > rowsCount` (note: `at == rowsCount` passes the guard; the
code then frees an uninitialized row slot — undefined behavior in C — and
`rowsCount--` drops the last row).  The observable list result in both
cases is `(rows with index at erased) truncated to rowsCount-1`; dirty is
incremented. -/
def editorDelRow (atPos : Int) (doc : Document) : Document :=
  if atPos < 0 ∨ atPos > (doc.rows.length : Int) then doc
  else
    let a := atPos.toNat
    { doc with
      rows := (doc.rows.take a ++ doc.rows.drop (a + 1)).take (doc.rows.length - 1),
      dirty := doc.dirty + 1 }

/-- editorRowsToString (atto.c lines 523-545): the serialized buffer (each
row's text followed by one newline, in row order) paired with the length
written to `*bufferLen` (the sum of `len + 1` over the rows). -/
def editorRowsToString (doc : Document) : List Char × Nat :=
  let totLen := doc.rows.foldl (fun t r => t + r.text.length + 1) 0
  let buffer := doc.rows.foldl (fun b r => b ++ r.text ++ ['\n']) []
  (buffer, totLen)

/-- The trailing `\r`/`\n` stripping loop of editorOpen (atto.c lines
608-609). -/
def stripEOL (s : List Char) : List Char :=
  (s.reverse.dropWhile (fun c => c == '\r' || c == '\n')).reverse

/-- getline chunking (atto.c line 606): each chunk runs up to and
including a newline; a final unterminated chunk is returned iff nonempty.
`acc` carries the bytes of the current chunk in reverse. -/
def splitAux (acc : List Char) : List Char → List (List Char)
  | [] => if acc = [] then [] else [acc.reverse]
  | c :: rest =>
    if c = '\n' then (acc.reverse ++ ['\n']) :: splitAux [] rest
    else splitAux (c :: acc) rest

/-- editorOpen (atto.c lines 592-617) on a file whose byte content is
`content`: sets the filename, appends one row per getline chunk with its
trailing `\r`/`\n` bytes stripped, and finally resets dirty to 0. -/
def editorOpen (filename : List Char) (content : List Char) (doc : Document) : Document :=
  let d := { doc with filename := some filename }
  let d := (splitAux [] content).foldl
    (fun d line => editorInsertRow (d.rows.length : Int) (stripEOL line) d) d
  { d with dirty := 0 }

/-- The initial document state set by initEditor (atto.c lines 218-223). -/
def initDocument : Document :=
  { rows := [], rowOffset := 0, colOffset := 0, filename := none, dirty := 0 }

/-- The editor state: EditorConfig's cursor and screen fields (atto.c
lines 60-70) together with the document they act on.  All the C fields
are ints that stay non-negative in every reachable state. -/
structure EditorState where
  doc : Document
  cursorX : Nat
  cursorY : Nat
  cursorRenderX : Nat
  screenRows : Nat
  screenCols : Nat
deriving DecidableEq, Repr

/-- editorScroll (atto.c lines 312-331): recompute cursorRenderX, then
snap colOffset against it and rowOffset against cursorY. -/
def editorScroll (st : EditorState) : EditorState :=
  let crx := if st.cursorY < st.doc.rows.length
    then editorCursorXToCursorRenderX (rowAt st.doc st.cursorY) st.cursorX
    else 0
  let co := st.doc.colOffset
  let co := if crx < co then crx else co
  let co := if crx ≥ co + st.screenCols then crx - st.screenCols + 1 else co
  let ro := st.doc.rowOffset
  let ro := if st.cursorY < ro then st.cursorY else ro
  let ro := if st.cursorY ≥ ro + st.screenRows then st.cursorY - st.screenRows + 1 else ro
  { st with cursorRenderX := crx, doc := { st.doc with colOffset := co, rowOffset := ro } }

/-- The key events handled by editorMoveCursor (EditorKey, atto.c lines
28-40). -/
inductive MoveKey where
  | arrowUp | arrowDown | arrowLeft | arrowRight
  | pageUp | pageDown | homeKey | endKey
deriving DecidableEq, Repr

/-- The final clamp of editorMoveCursor (atto.c lines 723-728): snap
cursorX to the length of the row now under the cursor (0 for the virtual
row past the end). -/
def clampCursorX (st : EditorState) : EditorState :=
  let rowLen := if st.cursorY < st.doc.rows.length
    then (rowAt st.doc st.cursorY).text.length else 0
  if st.cursorX > rowLen then { st with cursorX := rowLen } else st

/-- The switch body of editorMoveCursor (atto.c lines 661-721) for the
non-page keys, before the final clamp.  `row` is NULL exactly when
`cursorY >= rowsCount`. -/
def moveCursorNoClamp (key : MoveKey) (st : EditorState) : EditorState :=
  match key with
  | .arrowLeft =>
    if st.cursorX > 0 then { st with cursorX := st.cursorX - 1 }
    else if st.cursorY > 0 then
      { st with cursorY := st.cursorY - 1,
                cursorX := (rowAt st.doc (st.cursorY - 1)).text.length }
    else st
  | .arrowDown =>
    if st.cursorY < st.doc.rows.length then { st with cursorY := st.cursorY + 1 } else st
  | .arrowRight =>
    if st.cursorY < st.doc.rows.length ∧
        st.cursorX < (rowAt st.doc st.cursorY).text.length then
      { st with cursorX := st.cursorX + 1 }
    else if st.cursorY < st.doc.rows.length ∧
        st.cursorX = (rowAt st.doc st.cursorY).text.length then
      { st with cursorY := st.cursorY + 1, cursorX := 0 }
    else st
  | .arrowUp =>
    if st.cursorY > 0 then { st with cursorY := st.cursorY - 1 } else st
  | .homeKey => { st with cursorX := 0 }
  | .endKey => { st with cursorX := st.screenCols - 1 }
  | _ => st

/-- One editorMoveCursor call for a non-page key: the switch body followed
by the clamp. -/
def editorMoveCursorBasic (key : MoveKey) (st : EditorState) : EditorState :=
  clampCursorX (moveCursorNoClamp key st)

/-- editorMoveCursor (atto.c lines 661-729).  The page keys first anchor
cursorY at the viewport edge (PAGE_DOWN clamped to rowsCount), then repeat
the corresponding single-line move (a full recursive editorMoveCursor
call, clamp included) screenRows times; the outer call's own final clamp
follows. -/
def editorMoveCursor (key : MoveKey) (st : EditorState) : EditorState :=
  match key with
  | .pageUp =>
    clampCursorX ((editorMoveCursorBasic .arrowUp)^[st.screenRows]
      { st with cursorY := st.doc.rowOffset })
  | .pageDown =>
    let cy := st.doc.rowOffset + st.screenRows - 1
    let cy := if cy > st.doc.rows.length then st.doc.rows.length else cy
    clampCursorX ((editorMoveCursorBasic .arrowDown)^[st.screenRows]
      { st with cursorY := cy })
  | k => editorMoveCursorBasic k st

/-- editorInsertChar (atto.c lines 652-659): on the virtual row past the
end, first append an empty row; then insert the byte at cursorX in the
current row and advance cursorX. -/
def editorInsertChar (c : Char) (st : EditorState) : EditorState :=
  let st :=
    if st.cursorY = st.doc.rows.length then
      { st with doc := editorInsertRow (st.doc.rows.length : Int) [] st.doc }
    else st
  let rd := editorInsertCharAtRow c (st.cursorX : Int) (rowAt st.doc st.cursorY)
  { st with
    doc := { st.doc with rows := st.doc.rows.set st.cursorY rd.1,
                         dirty := st.doc.dirty + rd.2 },
    cursorX := st.cursorX + 1 }

/-- editorDelChar (atto.c lines 395-417): no-op on the virtual row and at
the very start of the document; within a row, delete at cursorX and move
left; at column 0 of a later row, append this row's text to the previous
row, delete this row, and move the cursor to the join point. -/
def editorDelChar (st : EditorState) : EditorState :=
  if st.cursorY = st.doc.rows.length then st
  else if st.cursorX = 0 ∧ st.cursorY = 0 then st
  else if st.cursorX > 0 then
    let rd := editorDelCharAtRow (st.cursorX : Int) (rowAt st.doc st.cursorY)
    { st with
      doc := { st.doc with rows := st.doc.rows.set st.cursorY rd.1,
                           dirty := st.doc.dirty + rd.2 },
      cursorX := st.cursorX - 1 }
  else
    let prev := rowAt st.doc (st.cursorY - 1)
    let cur := rowAt st.doc st.cursorY
    let newCursorX := prev.text.length
    let rd := editorAppendStringToRow cur.text prev
    let doc1 := { st.doc with rows := st.doc.rows.set (st.cursorY - 1) rd.1,
                              dirty := st.doc.dirty + rd.2 }
    let doc2 := editorDelRow (st.cursorY : Int) doc1
    { st with doc := doc2, cursorX := newCursorX, cursorY := st.cursorY - 1 }

/-- The outcomes of the external effects the save path performs: the
save-as prompt (None = the user pressed Escape) and the three fallible
syscalls open/ftruncate/write of atto.c lines 567-573. -/
structure SaveOutcome where
  promptResult : Option (List Char)
  openOk : Bool
  truncOk : Bool
  writeOk : Bool
deriving DecidableEq, Repr

/-- The body of editorSave after the filename is known (atto.c lines
564-589): on open+truncate+write success, dirty is reset to 0 and a
"bytes written" message is set; on any I/O failure the document is left
as is and the error message is set. -/
def editorSaveBody (io : SaveOutcome) (doc : Document) : Document × List Char :=
  if io.openOk then
    if io.truncOk then
      if io.writeOk then
        ({ doc with dirty := 0 }, " bytes written to disk".toList)
      else (doc, "File NOT save! I/O error: ".toList)
    else (doc, "File NOT save! I/O error: ".toList)
  else (doc, "File NOT save! I/O error: ".toList)

/-- editorSave (atto.c lines 551-590): with no filename, run the save-as
prompt first — Escape aborts with a status message and no other change;
otherwise (the prompt result becomes the filename and) the write is
attempted.  Returns the resulting document and the status message set. -/
def editorSave (io : SaveOutcome) (doc : Document) : Document × List Char :=
  match doc.filename with
  | none =>
    match io.promptResult with
    | none => (doc, "Save aborted!".toList)
    | some name => editorSaveBody io { doc with filename := some name }
  | some _ => editorSaveBody io doc

/-- A concrete editor state for the spec's scenarios: the single row
`"hello"` with the cursor at the end of it, on a 22x80 text area. -/
def helloState : EditorState :=
  { doc := { rows := [editorUpdateRow { text := ['h', 'e', 'l', 'l', 'o'], render := [] }],
             rowOffset := 0, colOffset := 0, filename := none, dirty := 0 },
    cursorX := 5, cursorY := 0, cursorRenderX := 0, screenRows := 22, screenCols := 80 }

/-- A file content assembled from line bodies, each followed by a `\n` or
(when the flag is set) `\r\n` terminator — the input shape of the
round-trip property. -/
def assembleLines (ls : List (List Char × Bool)) : List Char :=
  (ls.map (fun p => p.1 ++ if p.2 then ['\r', '\n'] else ['\n'])).flatten

/- ------------------------------------------------------------------ -/
/- Helper lemmas                                                       -/
/- ------------------------------------------------------------------ -/

theorem editorCursorXToCursorRenderX_eq (row : TextRow) (cursorX : Nat) :
    editorCursorXToCursorRenderX row cursorX = cxToRxFrom 0 (row.text.take cursorX) := rfl

/-- The tab step of the cursor translation equals the pad width of the
render expansion: both advance to the next multiple of TAB_STOP. -/
theorem tab_step_eq (crx : Nat) :
    crx + ((TAB_STOP - 1) - crx % TAB_STOP) + 1 = crx + (TAB_STOP - crx % TAB_STOP) := by
  have h : crx % TAB_STOP < TAB_STOP := Nat.mod_lt _ (by decide)
  unfold TAB_STOP at *
  omega

/-- Unfolding cxToRxFrom on a cons cell. -/
theorem cxToRxFrom_cons (crx : Nat) (c : Char) (s : List Char) :
    cxToRxFrom crx (c :: s) =
      cxToRxFrom (if c = '\t' then crx + ((TAB_STOP - 1) - crx % TAB_STOP) + 1 else crx + 1) s := by
  unfold cxToRxFrom
  simp [List.foldl_cons]

/-- The cursor translation started at column `crx` lands `crx` plus the
length of the render expansion started at column `crx`. -/
theorem cxToRxFrom_eq_length (s : List Char) :
    ∀ crx : Nat, cxToRxFrom crx s = crx + (renderAux crx s).length := by
  induction s with
  | nil => intro crx; simp [cxToRxFrom, renderAux]
  | cons c rest ih =>
    intro crx
    rw [cxToRxFrom_cons]
    by_cases hc : c = '\t'
    · simp only [hc, if_pos rfl]
      rw [tab_step_eq, ih]
      simp [renderAux, Nat.add_assoc]
    · rw [if_neg hc, ih]
      simp [renderAux, hc, Nat.add_comm, Nat.add_assoc, Nat.add_left_comm]

/-- The render expansion never shortens: each byte contributes at least
one output byte. -/
theorem renderAux_length_ge (s : List Char) :
    ∀ pos : Nat, s.length ≤ (renderAux pos s).length := by
  induction s with
  | nil => intro pos; simp [renderAux]
  | cons c rest ih =>
    intro pos
    by_cases hc : c = '\t'
    · subst hc
      have hp : pos % TAB_STOP < TAB_STOP := Nat.mod_lt _ (by decide)
      have h1 : 1 ≤ TAB_STOP - pos % TAB_STOP := by unfold TAB_STOP at *; omega
      have h2 := ih (pos + (TAB_STOP - pos % TAB_STOP))
      simp only [renderAux, reduceIte, List.length_append, List.length_replicate,
        List.length_cons]
      omega
    · have h2 := ih (pos + 1)
      simp only [renderAux, if_neg hc, List.length_cons]
      omega

/-- Tab-free text renders to itself, from any starting column. -/
theorem renderAux_no_tab (s : List Char) :
    ∀ pos : Nat, (∀ c ∈ s, c ≠ '\t') → renderAux pos s = s := by
  induction s with
  | nil => intro pos _; rfl
  | cons c rest ih =>
    intro pos h
    have hc : c ≠ '\t' := h c (List.mem_cons_self c rest)
    simp only [renderAux, if_neg hc]
    rw [ih (pos + 1) (fun x hx => h x (List.mem_cons_of_mem c hx))]

theorem mem_of_getLast?_eq {α : Type} {l : List α} {x : α} (h : l.getLast? = some x) :
    x ∈ l := by
  have hx : x ∈ l.getLast? := by rw [h]; rfl
  obtain ⟨hne, rfl⟩ := List.mem_getLast?_eq_getLast hx
  exact List.getLast_mem hne

/-- Setting the slot just past a list extended by one element. -/
theorem set_append_length {α : Type} (l : List α) (e r : α) :
    (l ++ [e]).set l.length r = l ++ [r] := by
  induction l with
  | nil => rfl
  | cons a t ih => simp [List.set, ih]

/-- Reading the slot just past a list extended by one element. -/
theorem getD_append_length {α : Type} (l : List α) (e d : α) :
    (l ++ [e]).getD l.length d = e := by
  induction l with
  | nil => rfl
  | cons a t _ => simp [List.getD]

/- ------------------------------------------------------------------ -/
/- C1                                                                  -/
/- ------------------------------------------------------------------ -/

/-- C1: for every row whose render field was produced by editorUpdateRow
from its text, editorCursorXToCursorRenderX at the row's full length
equals renderLen — the cursor translation's tab accounting agrees exactly
with the render expansion's column accounting, tabs included. -/
theorem C1_cursor_end_matches_renderLen (row : TextRow)
    (h : row.render = renderAux 0 row.text) :
    editorCursorXToCursorRenderX row row.text.length = row.render.length := by
  rw [editorCursorXToCursorRenderX_eq, List.take_length, cxToRxFrom_eq_length, h,
    Nat.zero_add]

theorem C1_cursor_end_matches_renderLen_witness :
    editorCursorXToCursorRenderX
      { text := ['a', '\t', 'b'], render := renderAux 0 ['a', '\t', 'b'] } 3 = 9 :=
  (C1_cursor_end_matches_renderLen
    { text := ['a', '\t', 'b'], render := renderAux 0 ['a', '\t', 'b'] } rfl).trans
    (by decide)

/- ------------------------------------------------------------------ -/
/- C4                                                                  -/
/- ------------------------------------------------------------------ -/

/-- C4: editorUpdateRow walks the text; a tab at render column `pos`
emits `TAB_STOP - pos % TAB_STOP` spaces (at least one, at most
TAB_STOP), landing exactly on the next multiple of the tab stop, and any
other byte is copied through; hence renderLen is at least len, tab-free
text renders to itself, and the row `"a\tb"` renders to `"a       b"`
(seven spaces) with editorCursorXToCursorRenderX at 2 returning 8. -/
theorem C4_tab_expansion :
    (∀ (pos : Nat) (rest : List Char),
      renderAux pos ('\t' :: rest) =
        List.replicate (TAB_STOP - pos % TAB_STOP) ' ' ++
          renderAux (pos + (TAB_STOP - pos % TAB_STOP)) rest ∧
      1 ≤ TAB_STOP - pos % TAB_STOP ∧ TAB_STOP - pos % TAB_STOP ≤ TAB_STOP ∧
      (pos + (TAB_STOP - pos % TAB_STOP)) % TAB_STOP = 0) ∧
    (∀ (pos : Nat) (c : Char) (rest : List Char), c ≠ '\t' →
      renderAux pos (c :: rest) = c :: renderAux (pos + 1) rest) ∧
    (∀ row : TextRow, row.text.length ≤ (editorUpdateRow row).render.length) ∧
    (∀ row : TextRow, (∀ c ∈ row.text, c ≠ '\t') →
      (editorUpdateRow row).render = row.text) ∧
    ((editorUpdateRow { text := ['a', '\t', 'b'], render := [] }).render =
        "a       b".toList ∧
      editorCursorXToCursorRenderX
        (editorUpdateRow { text := ['a', '\t', 'b'], render := [] }) 2 = 8) := by
  refine ⟨fun pos rest => ⟨rfl, ?_, ?_, ?_⟩, fun pos c rest hc => ?_, fun row => ?_,
    fun row h => ?_, by decide, by decide⟩
  · have hp : pos % TAB_STOP < TAB_STOP := Nat.mod_lt _ (by decide)
    unfold TAB_STOP at *; omega
  · exact Nat.sub_le _ _
  · have hp : pos % TAB_STOP < TAB_STOP := Nat.mod_lt _ (by decide)
    unfold TAB_STOP at *; omega
  · simp [renderAux, hc]
  · exact renderAux_length_ge row.text 0
  · exact renderAux_no_tab row.text 0 h

theorem C4_tab_expansion_witness :
    renderAux 0 ['x'] = 'x' :: renderAux 1 [] ∧
    (editorUpdateRow { text := ['x', 'y'], render := [] }).render = ['x', 'y'] :=
  ⟨C4_tab_expansion.2.1 0 'x' [] (by decide),
   C4_tab_expansion.2.2.2.1 { text := ['x', 'y'], render := [] } (by decide)⟩

/- ------------------------------------------------------------------ -/
/- C2                                                                  -/
/- ------------------------------------------------------------------ -/

/-- C2 counterexample: the guards of editorDelCharAtRow and editorDelRow
read `at > len` / `at > rowsCount`, not `>=`.  Offset 1 is out of the
byte range of the one-byte row `"a"` (its only byte offset is 0), yet the
call empties the row and increments dirty; likewise index 1 is out of
range of a one-row array, yet editorDelRow 1 removes the row and
increments dirty. -/
theorem C2_boundary_counterexample :
    (editorDelCharAtRow 1 { text := ['a'], render := ['a'] }).1.text = [] ∧
    (editorDelCharAtRow 1 { text := ['a'], render := ['a'] }).2 = 1 ∧
    (editorDelRow 1
      { initDocument with
        rows := [editorUpdateRow { text := ['a'], render := [] }] }).rows = [] ∧
    (editorDelRow 1
      { initDocument with
        rows := [editorUpdateRow { text := ['a'], render := [] }] }).dirty = 1 := by
  refine ⟨rfl, rfl, rfl, rfl⟩

/-- C2 (amended): editorDelCharAtRow is a no-op (row, len, render and
dirty unchanged) exactly when `at < 0` or `at > len`; at the boundary
`at == len` it instead removes the row's last byte.  Likewise editorDelRow
is a no-op exactly when `at < 0` or `at > rowsCount`; at `at == rowsCount`
it removes the last row (after freeing an uninitialized slot in the C). -/
theorem C2_out_of_range_deletes (row : TextRow) (doc : Document) (a b : Int)
    (ha : a < 0 ∨ a > (row.text.length : Int))
    (hb : b < 0 ∨ b > (doc.rows.length : Int)) :
    editorDelCharAtRow a row = (row, 0) ∧
    editorDelRow b doc = doc ∧
    (editorDelCharAtRow (row.text.length : Int) row).1.text = row.text.dropLast ∧
    (editorDelRow (doc.rows.length : Int) doc).rows = doc.rows.dropLast := by
  refine ⟨?_, ?_, ?_, ?_⟩
  · simp only [editorDelCharAtRow, if_pos ha]
  · simp only [editorDelRow, if_pos hb]
  · have hg : ¬((row.text.length : Int) < 0 ∨
        (row.text.length : Int) > (row.text.length : Int)) := by omega
    simp only [editorDelCharAtRow, if_neg hg, Int.toNat_natCast, List.take_length,
      List.drop_eq_nil_of_le (by omega : row.text.length ≤ row.text.length + 1),
      List.append_nil, List.dropLast_eq_take, editorUpdateRow]
  · have hg : ¬((doc.rows.length : Int) < 0 ∨
        (doc.rows.length : Int) > (doc.rows.length : Int)) := by omega
    simp only [editorDelRow, if_neg hg, Int.toNat_natCast, List.take_length,
      List.drop_eq_nil_of_le (by omega : doc.rows.length ≤ doc.rows.length + 1),
      List.append_nil, List.dropLast_eq_take]

theorem C2_out_of_range_deletes_witness :
    editorDelCharAtRow 2 { text := ['a'], render := ['a'] } =
      ({ text := ['a'], render := ['a'] }, 0) ∧
    editorDelRow (-1) initDocument = initDocument :=
  ⟨(C2_out_of_range_deletes { text := ['a'], render := ['a'] } initDocument 2 (-1)
      (by decide) (by decide)).1,
   (C2_out_of_range_deletes { text := ['a'], render := ['a'] } initDocument 2 (-1)
      (by decide) (by decide)).2.1⟩

/- ------------------------------------------------------------------ -/
/- C6                                                                  -/
/- ------------------------------------------------------------------ -/

theorem foldl_serialize (rows : List TextRow) :
    ∀ b : List Char,
      rows.foldl (fun b r => b ++ r.text ++ ['\n']) b =
        b ++ (rows.map (fun r => r.text ++ ['\n'])).flatten := by
  induction rows with
  | nil => intro b; simp
  | cons r rs ih => intro b; rw [List.foldl_cons, ih]; simp [List.append_assoc]

theorem rowsToString_buffer (doc : Document) :
    (editorRowsToString doc).1 = (doc.rows.map (fun r => r.text ++ ['\n'])).flatten := by
  have h := foldl_serialize doc.rows []
  simpa [editorRowsToString] using h

theorem foldl_totLen (rows : List TextRow) :
    ∀ t : Nat,
      rows.foldl (fun t r => t + r.text.length + 1) t =
        t + (rows.map (fun r => r.text.length + 1)).sum := by
  induction rows with
  | nil => intro t; simp
  | cons r rs ih => intro t; simp [ih]; omega

theorem rowsToString_len (doc : Document) :
    (editorRowsToString doc).2 = (doc.rows.map (fun r => r.text.length + 1)).sum := by
  have h := foldl_totLen doc.rows 0
  simpa [editorRowsToString] using h

/-- C6 counterexample: a row's text may itself contain a carriage return
(editorOpen strips only trailing ones: loading the file bytes `"a\rb\n"`
leaves the row text `"a\rb"`), and editorRowsToString copies it into the
output — a `\r` byte is emitted. -/
theorem C6_cr_counterexample :
    '\r' ∈ (editorRowsToString (editorOpen ['f'] ['a', '\r', 'b', '\n'] initDocument)).1 := by
  decide

/-- C6 (amended): editorRowsToString produces exactly each row's text
followed by one `\n`, concatenated in row order, and reports the sum of
the row lengths plus one per row as the buffer length; the serializer
itself adds only `\n` bytes, so no `\r` appears in the output unless a
row's text itself contains one (an interior `\r` surviving the load-time
strip of trailing `\r`/`\n` is emitted verbatim). -/
theorem C6_serialize_exact (doc : Document) :
    (editorRowsToString doc).1 = (doc.rows.map (fun r => r.text ++ ['\n'])).flatten ∧
    (editorRowsToString doc).2 = (doc.rows.map (fun r => r.text.length + 1)).sum ∧
    ((∀ r ∈ doc.rows, '\r' ∉ r.text) → '\r' ∉ (editorRowsToString doc).1) := by
  refine ⟨rowsToString_buffer doc, rowsToString_len doc, ?_⟩
  intro h
  rw [rowsToString_buffer doc]
  intro hmem
  rcases List.mem_flatten.mp hmem with ⟨l, hl, hcr⟩
  rcases List.mem_map.mp hl with ⟨r, hr, rfl⟩
  rcases List.mem_append.mp hcr with hin | hin
  · exact h r hr hin
  · simp at hin

theorem C6_serialize_exact_witness :
    (editorRowsToString (editorOpen ['f'] ['h', 'i', '\n'] initDocument)).1 =
      ['h', 'i', '\n'] ∧
    '\r' ∉ (editorRowsToString (editorOpen ['f'] ['h', 'i', '\n'] initDocument)).1 :=
  ⟨((C6_serialize_exact (editorOpen ['f'] ['h', 'i', '\n'] initDocument)).1).trans
      (by decide),
   (C6_serialize_exact (editorOpen ['f'] ['h', 'i', '\n'] initDocument)).2.2 (by decide)⟩

/- ------------------------------------------------------------------ -/
/- C3                                                                  -/
/- ------------------------------------------------------------------ -/

/-- Inserting at index rowsCount appends a freshly rendered row. -/
theorem insertRow_at_length (s : List Char) (doc : Document) :
    editorInsertRow (doc.rows.length : Int) s doc =
      { doc with rows := doc.rows ++ [editorUpdateRow { text := s, render := [] }],
                 dirty := doc.dirty + 1 } := by
  have hg : ¬((doc.rows.length : Int) < 0 ∨
      (doc.rows.length : Int) > (doc.rows.length : Int)) := by omega
  simp [editorInsertRow, if_neg hg, List.take_length, List.drop_length]

/-- The editorOpen loop appends one row per chunk, bumping dirty once per
chunk. -/
theorem open_foldl (chunks : List (List Char)) :
    ∀ d : Document,
      chunks.foldl (fun d line => editorInsertRow (d.rows.length : Int) (stripEOL line) d) d =
        { d with
          rows := d.rows ++
            chunks.map (fun l => editorUpdateRow { text := stripEOL l, render := [] }),
          dirty := d.dirty + chunks.length } := by
  induction chunks with
  | nil => intro d; simp
  | cons c cs ih =>
    intro d
    rw [List.foldl_cons, insertRow_at_length, ih]
    simp [List.append_assoc]
    omega

/-- editorOpen in closed form: filename set, one row per chunk with its
line ending stripped, dirty reset to 0. -/
theorem editorOpen_eq (fn content : List Char) (doc : Document) :
    editorOpen fn content doc =
      { doc with
        filename := some fn,
        rows := doc.rows ++
          (splitAux [] content).map
            (fun l => editorUpdateRow { text := stripEOL l, render := [] }),
        dirty := 0 } := by
  unfold editorOpen
  simp only [open_foldl]

/-- splitAux on a newline-free body followed by a literal newline cuts
exactly after that newline. -/
theorem splitAux_body_newline :
    ∀ b : List Char, '\n' ∉ b → ∀ rest acc : List Char,
      splitAux acc (b ++ '\n' :: rest) =
        (acc.reverse ++ (b ++ ['\n'])) :: splitAux [] rest := by
  intro b
  induction b with
  | nil => intro _ rest acc; simp [splitAux]
  | cons c bs ih =>
    intro hb rest acc
    have hc : c ≠ '\n' := fun h => hb (h ▸ List.mem_cons_self c bs)
    have hbs : '\n' ∉ bs := fun h => hb (List.mem_cons_of_mem c h)
    simp only [List.cons_append, splitAux, if_neg hc]
    show splitAux (c :: acc) (bs ++ '\n' :: rest) =
      (acc.reverse ++ c :: (bs ++ ['\n'])) :: splitAux [] rest
    rw [ih hbs rest (c :: acc)]
    simp

/-- Stripping the trailing `\n` or `\r\n` terminator from a body that
ends in neither `\r` nor `\n` recovers the body. -/
theorem stripEOL_append_term (b : List Char) (hr : b.getLast? ≠ some '\r')
    (hn : b.getLast? ≠ some '\n') (cr : Bool) :
    stripEOL (b ++ (if cr then ['\r', '\n'] else ['\n'])) = b := by
  have hbrev : b.reverse.dropWhile (fun c => c == '\r' || c == '\n') = b.reverse := by
    cases hb : b.reverse with
    | nil => rfl
    | cons x t =>
      have hx : b.getLast? = some x := by rw [← List.head?_reverse, hb]; rfl
      have hx1 : x ≠ '\r' := fun h => hr (h ▸ hx)
      have hx2 : x ≠ '\n' := fun h => hn (h ▸ hx)
      rw [List.dropWhile_cons, if_neg]
      simp [hx1, hx2]
  cases cr
  · simp [stripEOL, List.reverse_append, List.dropWhile_cons, hbrev]
  · simp [stripEOL, List.reverse_append, List.dropWhile_cons, hbrev]

/-- getline chunking recovers the assembled lines, terminators included,
provided every body is newline-free. -/
theorem splitAux_assembleLines :
    ∀ ls : List (List Char × Bool), (∀ p ∈ ls, '\n' ∉ p.1) →
      splitAux [] (assembleLines ls) =
        ls.map (fun p => p.1 ++ if p.2 then ['\r', '\n'] else ['\n']) := by
  intro ls
  induction ls with
  | nil => intro _; rfl
  | cons p ps ih =>
    intro h
    have h1 : '\n' ∉ p.1 := h p (List.mem_cons_self p ps)
    have hps : ∀ q ∈ ps, '\n' ∉ q.1 := fun q hq => h q (List.mem_cons_of_mem p hq)
    cases hp : p.2 with
    | false =>
      have he : assembleLines (p :: ps) = p.1 ++ '\n' :: assembleLines ps := by
        simp [assembleLines, hp]
      rw [he, splitAux_body_newline p.1 h1 (assembleLines ps) [], ih hps]
      simp [hp]
    | true =>
      have hb : '\n' ∉ p.1 ++ ['\r'] := by
        intro hm
        rcases List.mem_append.mp hm with hm | hm
        · exact h1 hm
        · simp at hm
      have he : assembleLines (p :: ps) = (p.1 ++ ['\r']) ++ '\n' :: assembleLines ps := by
        simp [assembleLines, hp]
      rw [he, splitAux_body_newline (p.1 ++ ['\r']) hb (assembleLines ps) [], ih hps]
      simp [hp]

/-- C3 counterexample: the file content `"a"` has no trailing newline;
loading it and serializing yields `"a\n"`, not the original content — a
final newline is always appended. -/
theorem C3_unterminated_counterexample :
    (editorRowsToString (editorOpen ['f'] ['a'] initDocument)).1 ≠ ['a'] := by
  decide

/-- C3 (amended): for file content assembled from lines each consisting
of a newline-free body not ending in `\r`, followed by a `\n` or `\r\n`
terminator, loading with editorOpen and serializing with
editorRowsToString yields the bodies joined with `\n` endings; in
particular when every terminator is already `\n` the original content is
reproduced exactly.  (A final line without its terminator gains one, and
a `\r` not directly before the final `\n` of a line survives — the
unrestricted claim fails there.) -/
theorem C3_roundtrip (ls : List (List Char × Bool)) (fn : List Char)
    (h : ∀ p ∈ ls, '\n' ∉ p.1 ∧ p.1.getLast? ≠ some '\r') :
    (editorRowsToString (editorOpen fn (assembleLines ls) initDocument)).1 =
      (ls.map (fun p => p.1 ++ ['\n'])).flatten ∧
    ((∀ p ∈ ls, p.2 = false) →
      (editorRowsToString (editorOpen fn (assembleLines ls) initDocument)).1 =
        assembleLines ls) := by
  have hbody : ∀ p ∈ ls, '\n' ∉ p.1 := fun p hp => (h p hp).1
  have hmain :
      (editorRowsToString (editorOpen fn (assembleLines ls) initDocument)).1 =
        (ls.map (fun p => p.1 ++ ['\n'])).flatten := by
    rw [rowsToString_buffer, editorOpen_eq]
    simp only [initDocument, List.nil_append, splitAux_assembleLines ls hbody,
      List.map_map]
    congr 1
    refine List.map_congr_left ?_
    intro p hp
    have hn : p.1.getLast? ≠ some '\n' := by
      intro hlast
      exact (h p hp).1 (mem_of_getLast?_eq hlast)
    simp only [Function.comp]
    rw [show (editorUpdateRow
        { text := stripEOL (p.1 ++ if p.2 then ['\r', '\n'] else ['\n']),
          render := [] }).text =
        stripEOL (p.1 ++ if p.2 then ['\r', '\n'] else ['\n']) from rfl]
    rw [stripEOL_append_term p.1 (h p hp).2 hn p.2]
  refine ⟨hmain, fun hall => hmain.trans ?_⟩
  unfold assembleLines
  congr 1
  refine List.map_congr_left ?_
  intro p hp
  simp [hall p hp]

theorem C3_roundtrip_witness :
    (editorRowsToString
      (editorOpen ['f'] (assembleLines [(['a'], false), (['b', 'c'], true)])
        initDocument)).1 = ['a', '\n', 'b', 'c', '\n'] ∧
    (editorRowsToString
      (editorOpen ['f'] (assembleLines [(['x'], false)]) initDocument)).1 =
      assembleLines [(['x'], false)] :=
  ⟨((C3_roundtrip [(['a'], false), (['b', 'c'], true)] ['f'] (by decide)).1).trans
      (by decide),
   (C3_roundtrip [(['x'], false)] ['f'] (by decide)).2 (by decide)⟩

/- ------------------------------------------------------------------ -/
/- C8                                                                  -/
/- ------------------------------------------------------------------ -/

/-- C8: with a positive text area, after editorScroll the cursor lies
inside the visible window: rowOffset <= cursorY < rowOffset + screenRows
and colOffset <= cursorRenderX < colOffset + screenCols, cursorRenderX
being the freshly recomputed render-space column. -/
theorem C8_scroll_keeps_cursor_visible (st : EditorState)
    (hr : 0 < st.screenRows) (hc : 0 < st.screenCols) :
    (editorScroll st).doc.rowOffset ≤ (editorScroll st).cursorY ∧
    (editorScroll st).cursorY <
      (editorScroll st).doc.rowOffset + (editorScroll st).screenRows ∧
    (editorScroll st).doc.colOffset ≤ (editorScroll st).cursorRenderX ∧
    (editorScroll st).cursorRenderX <
      (editorScroll st).doc.colOffset + (editorScroll st).screenCols := by
  unfold editorScroll
  dsimp only
  split_ifs <;> refine ⟨?_, ?_, ?_, ?_⟩ <;> omega

theorem C8_scroll_keeps_cursor_visible_witness :
    (editorScroll helloState).doc.rowOffset ≤ (editorScroll helloState).cursorY ∧
    (editorScroll helloState).cursorY <
      (editorScroll helloState).doc.rowOffset + (editorScroll helloState).screenRows ∧
    (editorScroll helloState).doc.colOffset ≤ (editorScroll helloState).cursorRenderX ∧
    (editorScroll helloState).cursorRenderX <
      (editorScroll helloState).doc.colOffset + (editorScroll helloState).screenCols :=
  C8_scroll_keeps_cursor_visible helloState (by decide) (by decide)

/- ------------------------------------------------------------------ -/
/- C9                                                                  -/
/- ------------------------------------------------------------------ -/

/-- C9: the End key sets cursorX to screenCols - 1 and the final clamp
then snaps it to the current row's length (0 on the virtual row), so the
cursor lands at min (screenCols - 1) rowLen — on a row longer than
screenCols - 1 bytes, End does not reach the end of the line.  cursorY is
untouched. -/
theorem C9_end_key_clamped_to_screen (st : EditorState) (_h : 1 ≤ st.screenCols) :
    (editorMoveCursor .endKey st).cursorX =
      min (st.screenCols - 1)
        (if st.cursorY < st.doc.rows.length
          then (rowAt st.doc st.cursorY).text.length else 0) ∧
    (editorMoveCursor .endKey st).cursorY = st.cursorY := by
  unfold editorMoveCursor editorMoveCursorBasic moveCursorNoClamp clampCursorX
  dsimp only
  constructor
  · split_ifs <;> dsimp only <;> omega
  · split_ifs <;> rfl

theorem C9_end_key_clamped_to_screen_witness :
    (editorMoveCursor .endKey helloState).cursorX = min 79 5 ∧
    (editorMoveCursor .endKey helloState).cursorY = 0 :=
  C9_end_key_clamped_to_screen helloState (by decide)

/- ------------------------------------------------------------------ -/
/- C10                                                                 -/
/- ------------------------------------------------------------------ -/

/-- C10: typing a character with the cursor on the virtual row past the
end (cursorY == rowsCount, column 0 — the only column the state model
admits there) first appends an empty row and then inserts the byte into
it: rowsCount grows by exactly one, the new last row's text is the single
inserted byte, and cursorX advances to 1. -/
theorem C10_insert_char_on_virtual_row (st : EditorState) (c : Char)
    (hy : st.cursorY = st.doc.rows.length) (hx : st.cursorX = 0) :
    (editorInsertChar c st).doc.rows.length = st.doc.rows.length + 1 ∧
    ((editorInsertChar c st).doc.rows.getLast?).map TextRow.text = some [c] ∧
    (editorInsertChar c st).cursorX = 1 := by
  rcases st with ⟨doc, cx, cy, crx, sr, sc⟩
  change cy = doc.rows.length at hy
  change cx = 0 at hx
  subst hy
  subst hx
  unfold editorInsertChar
  rw [if_pos rfl, insertRow_at_length]
  simp only [rowAt]
  rw [getD_append_length]
  rw [set_append_length]
  refine ⟨by simp, ?_, trivial⟩
  rw [List.getLast?_concat]
  rfl

theorem C10_insert_char_on_virtual_row_witness :
    (editorInsertChar 'z'
      { doc := initDocument, cursorX := 0, cursorY := 0, cursorRenderX := 0,
        screenRows := 22, screenCols := 80 }).doc.rows.length = 1 ∧
    ((editorInsertChar 'z'
      { doc := initDocument, cursorX := 0, cursorY := 0, cursorRenderX := 0,
        screenRows := 22, screenCols := 80 }).doc.rows.getLast?).map TextRow.text =
      some ['z'] ∧
    (editorInsertChar 'z'
      { doc := initDocument, cursorX := 0, cursorY := 0, cursorRenderX := 0,
        screenRows := 22, screenCols := 80 }).cursorX = 1 :=
  C10_insert_char_on_virtual_row
    { doc := initDocument, cursorX := 0, cursorY := 0, cursorRenderX := 0,
      screenRows := 22, screenCols := 80 } 'z' rfl rfl

/- ------------------------------------------------------------------ -/
/- C5                                                                  -/
/- ------------------------------------------------------------------ -/

/-- editorDelRow on an in-range index removes exactly that row. -/
theorem delRow_in_range (doc : Document) (a : Nat) (h : a < doc.rows.length) :
    editorDelRow (a : Int) doc =
      { doc with rows := doc.rows.take a ++ doc.rows.drop (a + 1),
                 dirty := doc.dirty + 1 } := by
  have hg : ¬((a : Int) < 0 ∨ (a : Int) > (doc.rows.length : Int)) := by omega
  simp only [editorDelRow, if_neg hg, Int.toNat_natCast]
  congr 1
  refine List.take_of_length_le ?_
  simp [List.length_take, List.length_drop]
  omega

/-- Cutting around index k+1 of a list whose slot k was overwritten keeps
the overwrite and drops the k+1 slot. -/
theorem take_set_drop {α : Type} :
    ∀ (l : List α) (k : Nat) (r : α), k < l.length →
      (l.set k r).take (k + 1) ++ (l.set k r).drop (k + 2) =
        l.take k ++ r :: l.drop (k + 2) := by
  intro l
  induction l with
  | nil => intro k r h; simp at h
  | cons a t ih =>
    intro k r h
    cases k with
    | zero => simp [List.set]
    | succ k =>
      have h' : k < t.length := Nat.lt_of_succ_lt_succ (by simpa using h)
      show ((a :: t.set k r).take (k + 2)) ++ ((a :: t.set k r).drop (k + 3)) =
        (a :: t).take (k + 1) ++ r :: (a :: t).drop (k + 3)
      simp only [List.take_succ_cons, List.drop_succ_cons, List.cons_append]
      rw [ih k r h']

/-- Backspace at column 0 of row cy (0 < cy < rowsCount) in closed form:
the previous row gains this row's text, the row disappears, the cursor
moves to the join point, and dirty is bumped twice (append + delete). -/
theorem delChar_join (doc : Document) (cy crx sr sc : Nat)
    (h0 : 0 < cy) (hlen : cy < doc.rows.length) :
    editorDelChar
      { doc := doc, cursorX := 0, cursorY := cy, cursorRenderX := crx,
        screenRows := sr, screenCols := sc } =
      { doc := { doc with
          rows := doc.rows.take (cy - 1) ++
            (editorAppendStringToRow (rowAt doc cy).text (rowAt doc (cy - 1))).1 ::
              doc.rows.drop (cy + 1),
          dirty := doc.dirty + 2 },
        cursorX := (rowAt doc (cy - 1)).text.length, cursorY := cy - 1,
        cursorRenderX := crx, screenRows := sr, screenCols := sc } := by
  unfold editorDelChar
  rw [if_neg (by omega : ¬cy = doc.rows.length),
    if_neg (by omega : ¬((0 : Nat) = 0 ∧ cy = 0)),
    if_neg (by omega : ¬(0 : Nat) > 0)]
  dsimp only
  have hset : cy < (doc.rows.set (cy - 1)
      (editorAppendStringToRow (rowAt doc cy).text (rowAt doc (cy - 1))).1).length := by
    simpa using hlen
  rw [delRow_in_range _ cy hset]
  have hcut := take_set_drop doc.rows (cy - 1)
    (editorAppendStringToRow (rowAt doc cy).text (rowAt doc (cy - 1))).1
    (by omega : cy - 1 < doc.rows.length)
  rw [show cy - 1 + 1 = cy by omega, show cy - 1 + 2 = cy + 1 by omega] at hcut
  simp only [hcut]
  rfl

/-- C5: Backspace honors its boundary contract — at row 0, column 0 it is
a no-op; at column 0 of any later (existing) row it appends that row's
full text onto the previous row, deletes the row, and moves the cursor to
the previous row's original length; and on the single row "hello" with the
cursor at column 5, five Backspaces leave one empty row (rowsCount is
unchanged — the row is not deleted for being empty). -/
theorem C5_backspace_contract :
    (∀ st : EditorState, st.cursorX = 0 → st.cursorY = 0 → editorDelChar st = st) ∧
    (∀ st : EditorState, st.cursorX = 0 → 0 < st.cursorY →
      st.cursorY < st.doc.rows.length →
      (editorDelChar st).cursorY = st.cursorY - 1 ∧
      (editorDelChar st).cursorX = (rowAt st.doc (st.cursorY - 1)).text.length ∧
      (editorDelChar st).doc.rows =
        st.doc.rows.take (st.cursorY - 1) ++
          (editorAppendStringToRow (rowAt st.doc st.cursorY).text
            (rowAt st.doc (st.cursorY - 1))).1 :: st.doc.rows.drop (st.cursorY + 1) ∧
      (editorDelChar st).doc.rows.length = st.doc.rows.length - 1) ∧
    ((editorDelChar^[5] helloState).doc.rows.map TextRow.text = [[]] ∧
      (editorDelChar^[5] helloState).doc.rows.length = 1) := by
  refine ⟨?_, ?_, by decide, by decide⟩
  · intro st hx hy
    rcases st with ⟨doc, cx, cy, crx, sr, sc⟩
    change cx = 0 at hx
    change cy = 0 at hy
    subst hx
    subst hy
    unfold editorDelChar
    split_ifs with h1 h2 h3
    · rfl
    · rfl
    · exact absurd ⟨rfl, rfl⟩ h2
    · exact absurd ⟨rfl, rfl⟩ h2
  · intro st hx h0 hlen
    rcases st with ⟨doc, cx, cy, crx, sr, sc⟩
    change cx = 0 at hx
    change 0 < cy at h0
    change cy < doc.rows.length at hlen
    subst hx
    rw [delChar_join doc cy crx sr sc h0 hlen]
    refine ⟨rfl, rfl, rfl, ?_⟩
    show (doc.rows.take (cy - 1) ++ _ :: doc.rows.drop (cy + 1)).length =
      doc.rows.length - 1
    simp [List.length_take, List.length_drop]
    omega

theorem C5_backspace_contract_witness :
    editorDelChar
      { doc := initDocument, cursorX := 0, cursorY := 0, cursorRenderX := 0,
        screenRows := 22, screenCols := 80 } =
      { doc := initDocument, cursorX := 0, cursorY := 0, cursorRenderX := 0,
        screenRows := 22, screenCols := 80 } ∧
    (editorDelChar
      { doc := { initDocument with
          rows := [editorUpdateRow { text := ['a', 'b'], render := [] },
                   editorUpdateRow { text := ['c'], render := [] }] },
        cursorX := 0, cursorY := 1, cursorRenderX := 0,
        screenRows := 22, screenCols := 80 }).cursorX = 2 ∧
    (editorDelChar
      { doc := { initDocument with
          rows := [editorUpdateRow { text := ['a', 'b'], render := [] },
                   editorUpdateRow { text := ['c'], render := [] }] },
        cursorX := 0, cursorY := 1, cursorRenderX := 0,
        screenRows := 22, screenCols := 80 }).doc.rows.length = 1 :=
  ⟨C5_backspace_contract.1
      { doc := initDocument, cursorX := 0, cursorY := 0, cursorRenderX := 0,
        screenRows := 22, screenCols := 80 } rfl rfl,
   ((C5_backspace_contract.2.1
      { doc := { initDocument with
          rows := [editorUpdateRow { text := ['a', 'b'], render := [] },
                   editorUpdateRow { text := ['c'], render := [] }] },
        cursorX := 0, cursorY := 1, cursorRenderX := 0,
        screenRows := 22, screenCols := 80 } rfl (by decide) (by decide)).2.1).trans
      (by decide),
   ((C5_backspace_contract.2.1
      { doc := { initDocument with
          rows := [editorUpdateRow { text := ['a', 'b'], render := [] },
                   editorUpdateRow { text := ['c'], render := [] }] },
        cursorX := 0, cursorY := 1, cursorRenderX := 0,
        screenRows := 22, screenCols := 80 } rfl (by decide) (by decide)).2.2.2).trans
      (by decide)⟩

/- ------------------------------------------------------------------ -/
/- C7                                                                  -/
/- ------------------------------------------------------------------ -/

/-- C7: Escape in the save-as prompt aborts the save with a "Save
aborted!" status and no other change; when any of the open/truncate/write
steps fails the rows and the dirty counter are untouched and a non-empty
status message is set; and dirty is reset to 0 only when all three steps
succeed (a successful complete write). -/
theorem C7_save_failure_contract :
    (∀ (doc : Document) (io : SaveOutcome), doc.filename = none →
      io.promptResult = none →
      editorSave io doc = (doc, "Save aborted!".toList)) ∧
    (∀ (doc : Document) (io : SaveOutcome),
      (io.openOk = false ∨ io.truncOk = false ∨ io.writeOk = false) →
      (editorSave io doc).1.rows = doc.rows ∧
      (editorSave io doc).1.dirty = doc.dirty ∧
      (editorSave io doc).2 ≠ []) ∧
    (∀ (doc : Document) (io : SaveOutcome), doc.dirty ≠ 0 →
      (editorSave io doc).1.dirty = 0 →
      io.openOk = true ∧ io.truncOk = true ∧ io.writeOk = true) := by
  refine ⟨?_, ?_, ?_⟩
  · intro doc io h1 h2
    simp [editorSave, h1, h2]
  · intro doc io h
    rcases io with ⟨pr, o, t, w⟩
    cases doc0 : doc.filename <;> cases pr <;>
      cases o <;> cases t <;> cases w <;>
      simp_all [editorSave, editorSaveBody]
  · intro doc io hd h0
    rcases io with ⟨pr, o, t, w⟩
    cases doc0 : doc.filename <;> cases pr <;>
      cases o <;> cases t <;> cases w <;>
      simp_all [editorSave, editorSaveBody]

theorem C7_save_failure_contract_witness :
    editorSave
      { promptResult := none, openOk := true, truncOk := true, writeOk := true }
      { initDocument with dirty := 3 } =
      ({ initDocument with dirty := 3 }, "Save aborted!".toList) ∧
    (editorSave
      { promptResult := some ['f'], openOk := false, truncOk := false,
        writeOk := false }
      { initDocument with dirty := 3 }).1.dirty = 3 ∧
    (({ promptResult := some ['f'], openOk := true, truncOk := true,
        writeOk := true } : SaveOutcome).openOk = true ∧
      ({ promptResult := some ['f'], openOk := true, truncOk := true,
         writeOk := true } : SaveOutcome).truncOk = true ∧
      ({ promptResult := some ['f'], openOk := true, truncOk := true,
         writeOk := true } : SaveOutcome).writeOk = true) :=
  ⟨C7_save_failure_contract.1 { initDocument with dirty := 3 }
      { promptResult := none, openOk := true, truncOk := true, writeOk := true }
      rfl rfl,
   ((C7_save_failure_contract.2.1 { initDocument with dirty := 3 }
      { promptResult := some ['f'], openOk := false, truncOk := false,
        writeOk := false }
      (Or.inl rfl)).2.1).trans rfl,
   C7_save_failure_contract.2.2 { initDocument with dirty := 3 }
      { promptResult := some ['f'], openOk := true, truncOk := true,
        writeOk := true }
      (by decide) (by decide)⟩

end Atto
